import Mathlib

/-!
Verification development for the sandboxed path-resolution and mutation layer
of the flash-go/files-service repository.

The repository's hardened repository adapters (`CreateDir`, `DeleteDir`,
`RenameDir`, `CreateFile`, `GetFiles`, `DeleteFile`, `RenameFile`) manipulate
Unix path strings with Go's `path/filepath` functions and the `os` package.
This file gives a shallow embedding:

* faithful Lean reimplementations of the `path/filepath` string functions the
  adapters use (`Clean`, `Join`, `Dir`, `Base`, `Rel`, `Abs`,
  `strings.HasPrefix`, `strings.Count`);
* a filesystem environment model: an association list from absolute cleaned
  path strings to nodes (directory, regular file, symbolic link), with the
  `os` primitives used by the adapters (`Lstat`, `Stat`, `EvalSymlinks`,
  `MkdirAll`, `RemoveAll`, `Remove`, `Rename`, `Create`, `ReadDir`, `Open`);
* the seven hardened adapter operations and the two naive adapter operations
  the claims mention, translated statement by statement from the Go source;
* theorems settling the frozen claims about this layer.

All definitions are computable, so every theorem with hypotheses comes with a
closed witness evaluated by `decide`/`rfl`.
-/

set_option maxRecDepth 4000

namespace FilesService

/-! ### Go `path/filepath` string functions (Unix rules, no volume names) -/

/-- One path segment, as a list of characters. -/
abbrev Seg := List Char

/-- Split a character list on `'/'`, keeping empty segments, exactly like
Go's `strings.Split(path, "/")` which underlies `filepath` segmentation. -/
def splitSlash : List Char → List Seg
  | [] => [[]]
  | c :: cs =>
    let r := splitSlash cs
    if c = '/' then [] :: r
    else
      match r with
      | s :: rest => (c :: s) :: rest
      | [] => [[c]]

/-- Join segments with `'/'` separators. -/
def joinSegs : List Seg → List Char
  | [] => []
  | [s] => s
  | s :: rest => s ++ '/' :: joinSegs rest

/-- Whether the path begins with the separator, i.e. is absolute
(`filepath.IsAbs` on Unix). -/
def isRooted (p : String) : Bool :=
  match p.data with
  | c :: _ => c == '/'
  | [] => false

/-- The segment-processing loop of Go's `filepath.Clean`: drop empty and `.`
segments; on `..` pop a previous segment, keep `..` only when not rooted and
nothing is left to pop. First argument is the remaining input, second the
output stack (reversed). -/
def cleanLoop (rooted : Bool) : List Seg → List Seg → List Seg
  | [], out => out
  | s :: rest, out =>
    if s = [] ∨ s = ['.'] then cleanLoop rooted rest out
    else if s = ['.', '.'] then
      match out with
      | o :: os =>
        if o = ['.', '.'] then cleanLoop rooted rest (s :: o :: os)
        else cleanLoop rooted rest os
      | [] => if rooted then cleanLoop rooted rest [] else cleanLoop rooted rest [s]
    else cleanLoop rooted rest (s :: out)

/-- Go `filepath.Clean` for Unix paths. -/
def goClean (p : String) : String :=
  if p = "" then "." else
  let rooted := isRooted p
  let segs := (cleanLoop rooted (splitSlash p.data) []).reverse
  let body := joinSegs segs
  if rooted then String.mk ('/' :: body)
  else if body = [] then "." else String.mk body

/-- Go `strings.HasPrefix pre s`-style check: `hasPre s pre` is true iff `s`
starts with `pre` (argument order matches `s.startsWith pre`). -/
def listPre {α : Type} [DecidableEq α] : List α → List α → Bool
  | [], _ => true
  | _ :: _, [] => false
  | a :: as, b :: bs => if a = b then listPre as bs else false

/-- Here `hasPre s pre = true` iff the string `s` starts with `pre`
(Go `strings.HasPrefix(s, pre)`). -/
def hasPre (s pre : String) : Bool := listPre pre.data s.data

/-- Go `filepath.Join` of two elements: drop empty elements, join the rest
with `/` and `Clean` the result. -/
def goJoin (a b : String) : String :=
  if a = "" then (if b = "" then "" else goClean b)
  else if b = "" then goClean a
  else goClean (a ++ "/" ++ b)

/-- Go `filepath.Abs`. The adapters run with an absolute store root, so the
process working directory (modelled as `/`) is never actually mixed in. -/
def goAbs (p : String) : String :=
  if isRooted p then goClean p else goClean ("/" ++ p)

/-- The characters of `p` up to and including the last `'/'`. -/
def keepThroughLastSlash (cs : List Char) : List Char :=
  ((cs.reverse.dropWhile (fun c => ¬ c = '/')).reverse)

/-- Go `filepath.Dir`: everything before the final element, `Clean`ed;
`"."` when the path has no separator. -/
def goDir (p : String) : String :=
  if p.data.contains '/' then goClean (String.mk (keepThroughLastSlash p.data))
  else "."

/-- Go `filepath.Base`: the final element after stripping trailing slashes;
`"."` for the empty string, `"/"` for all-slashes. -/
def goBase (p : String) : String :=
  if p = "" then "." else
  let cs := (p.data.reverse.dropWhile (fun c => c = '/')).reverse
  if cs = [] then "/" else
  String.mk (cs.reverse.takeWhile (fun c => ¬ c = '/')).reverse

/-- Segments of a cleaned absolute path (empty segments dropped). -/
def pathSegs (p : String) : List Seg :=
  (splitSlash p.data).filter (fun s => ¬ s = [])

/-- Strip the longest common leading run of segments from both lists
(the common-ancestor step of `filepath.Rel`). -/
def stripCommon : List Seg → List Seg → List Seg × List Seg
  | b :: bs, t :: ts => if b = t then stripCommon bs ts else (b :: bs, t :: ts)
  | bs, ts => (bs, ts)

/-- Go `filepath.Rel(base, targ)` for the rooted, cleaned inputs the adapters
feed it (both arguments are outputs of `Abs`/`Join`, so the error case of the
Go function, mixing rooted and unrooted paths, cannot arise and is omitted). -/
def goRel (base targ : String) : String :=
  let b := goClean base
  let t := goClean targ
  if b = t then "." else
  let p := stripCommon (pathSegs b) (pathSegs t)
  String.mk (joinSegs (p.1.map (fun _ => ['.', '.']) ++ p.2))

/-- Go `strings.Count(s, "/")` (of `filepath.ToSlash(s)`, which is the
identity on Unix). -/
def countSlash (s : String) : Nat := s.data.count '/'

/-! ### Filesystem environment model -/

/-- A filesystem node: directory, regular file (content bytes plus an
`openable` flag modelling whether `os.Open` on it succeeds, e.g. read
permission), or symbolic link with its literal target string. -/
inductive Node where
  | dir : Node
  | file : List Nat → Bool → Node
  | symlink : String → Node
deriving DecidableEq, Repr

/-- A filesystem: an association list from absolute cleaned path strings to
nodes. Lookup takes the first match. -/
abbrev FS := List (String × Node)

/-- Raw key lookup (first match). -/
def fsGet (fs : FS) (p : String) : Option Node :=
  match fs.find? (fun e => decide (e.1 = p)) with
  | some e => some e.2
  | none => none

/-- Model of `os.Lstat`: kernel path lookup without following a final symlink.
The kernel normalizes the path lexically (`goClean`); `none` models the
only failure the environment exhibits, `ENOENT` (`os.IsNotExist`). -/
def lstat (fs : FS) (p : String) : Option Node := fsGet fs (goClean p)

/-- Resolve a symlink target `t` found at path `p`: relative targets are
interpreted relative to the link's directory. -/
def linkDest (p t : String) : String :=
  if isRooted t then goClean t else goJoin (goDir p) t

/-- Fuel-bounded resolution of final-symlink chains. -/
def statFuel (fs : FS) : Nat → String → Option Node
  | 0, _ => none
  | n + 1, p =>
    match lstat fs p with
    | some (Node.symlink t) => statFuel fs n (linkDest p t)
    | r => r

/-- Model of `os.Stat`: follows symbolic links on the final component. Fuel exceeding
the filesystem size makes genuine cycles (which error in the OS) map to
`none`. -/
def stat (fs : FS) (p : String) : Option Node := statFuel fs (fs.length + 1) p

/-- Fuel-bounded `filepath.EvalSymlinks`, returning the resolved absolute
path; `none` models a resolution error (dangling link, cycle). -/
def evalLinkFuel (fs : FS) : Nat → String → Option String
  | 0, _ => none
  | n + 1, p =>
    match lstat fs p with
    | none => none
    | some (Node.symlink t) => evalLinkFuel fs n (linkDest p t)
    | some _ => some (goClean p)

/-- Model of `filepath.EvalSymlinks` as used on walked entries. -/
def evalSymlinks (fs : FS) (p : String) : Option String :=
  evalLinkFuel fs (fs.length + 1) p

/-- All ancestor prefixes of `p` from `/` down to `p` itself. -/
def ancestorsOf (p : String) : List String :=
  (pathSegs (goClean p)).inits.map (fun l => String.mk ('/' :: joinSegs l))

/-- Model of `os.MkdirAll(p, 0700)`: walk the ancestor chain, skipping components that
`Stat` to directories, failing (`none`) on a component that exists as a
non-directory, creating missing ones. -/
def mkdirAll (fs : FS) (p : String) : Option FS :=
  (ancestorsOf p).foldl
    (fun acc q =>
      match acc with
      | none => none
      | some f =>
        match stat f q with
        | some Node.dir => some f
        | some _ => none
        | none => some ((q, Node.dir) :: f))
    (some fs)

/-- Model of `os.RemoveAll(p)`: remove `p` and every entry below it; never errors on a
missing path. -/
def removeAll (fs : FS) (p : String) : FS :=
  let c := goClean p
  fs.filter (fun e => !(decide (e.1 = c) || hasPre e.1 (c ++ "/")))

/-- Whether `c` has any entry strictly below it. -/
def hasChild (fs : FS) (c : String) : Bool :=
  fs.any (fun e => hasPre e.1 (c ++ "/"))

/-- Model of `os.Remove(p)`: remove a single file, symlink or empty directory;
`none` models an `ENOENT`/`ENOTEMPTY` error. -/
def removeOne (fs : FS) (p : String) : Option FS :=
  let c := goClean p
  match fsGet fs c with
  | none => none
  | some Node.dir =>
    if hasChild fs c then none
    else some (fs.filter (fun e => !(decide (e.1 = c))))
  | some _ => some (fs.filter (fun e => !(decide (e.1 = c))))

/-- Model of `os.Create(p)` followed by a full `io.Copy` of `content`: requires the
parent to resolve to a directory, replaces an existing regular file
(truncation), fails (`none`) on an existing directory. -/
def createF (fs : FS) (p : String) (content : List Nat) : Option FS :=
  let c := goClean p
  match stat fs (goDir c) with
  | some Node.dir =>
    match lstat fs c with
    | some Node.dir => none
    | _ => some ((c, Node.file content true) :: fs.filter (fun e => !(decide (e.1 = c))))
  | _ => none

/-- Model of `os.Rename(old, new)` after the adapters' own checks: errors (`none`) if
the source is missing, the destination exists, its parent is no directory, or
the destination lies inside the moved subtree (`EINVAL`); otherwise moves the
entry together with everything below it. -/
def renameEntry (fs : FS) (old new : String) : Option FS :=
  let o := goClean old
  let n := goClean new
  match lstat fs o with
  | none => none
  | some _ =>
    if n = o ∨ hasPre n (o ++ "/") then none
    else
      match lstat fs n with
      | some _ => none
      | none =>
        match stat fs (goDir n) with
        | some Node.dir =>
          some (fs.map (fun e =>
            if e.1 = o then (n, e.2)
            else if hasPre e.1 (o ++ "/") then
              (String.mk (n.data ++ e.1.data.drop o.data.length), e.2)
            else e))
        | _ => none

/-- Lexicographic strict order on character lists: Go's byte-wise `<` on
strings (identical on the code points the adapters compare). -/
def listLt : List Char → List Char → Bool
  | [], [] => false
  | [], _ :: _ => true
  | _ :: _, [] => false
  | a :: as, b :: bs => if a < b then true else if b < a then false else listLt as bs

/-- Go string `s < t`. -/
def strLt (s t : String) : Bool := listLt s.data t.data

/-- Model of `os.ReadDir(p)`: the immediate children of `p`, as `(name, node)` pairs
sorted by file name (the `os.ReadDir` contract). -/
def readDirChildren (fs : FS) (p : String) : List (String × Node) :=
  let pre := p ++ "/"
  List.insertionSort (fun a b => strLt b.1 a.1 = false)
    (fs.filterMap (fun e =>
      if hasPre e.1 pre = true ∧ e.1.data.length > pre.data.length ∧
         ¬ (e.1.data.drop pre.data.length).contains '/' = true
      then some (String.mk (e.1.data.drop pre.data.length), e.2)
      else none))

/-- Model of `os.Open` then reading: the content of the regular file `p` resolves to,
`none` when opening fails (missing, unreadable, or a directory, whose `Read`
yields no usable bytes). -/
def openFile (fs : FS) (p : String) : Option (List Nat) :=
  match stat fs p with
  | some (Node.file c true) => some c
  | _ => none

/-! ### Error taxonomy and result shapes -/

/-- The adapters' error values: the typed sentinel errors of the two port
packages, plus `osError` for every untyped error the Go code produces with
`fmt.Errorf` or by returning an OS error unchanged. -/
inductive Err where
  | invalidPath : Err
  | dirExist : Err
  | dirNotFound : Err
  | dirOldNotFound : Err
  | dirNewExist : Err
  | invalidFile : Err
  | fileExist : Err
  | fileNotFound : Err
  | fileOldNotFound : Err
  | fileNewExist : Err
  | osError : String → Err
deriving DecidableEq, Repr

instance {ε α : Type} [DecidableEq ε] [DecidableEq α] : DecidableEq (Except ε α)
  | .ok a, .ok b =>
    if h : a = b then isTrue (by rw [h])
    else isFalse (by intro hh; injection hh; contradiction)
  | .error a, .error b =>
    if h : a = b then isTrue (by rw [h])
    else isFalse (by intro hh; injection hh; contradiction)
  | .ok _, .error _ => isFalse (by intro hh; exact Except.noConfusion hh)
  | .error _, .ok _ => isFalse (by intro hh; exact Except.noConfusion hh)

/-- A multipart upload: declared file name plus content bytes
(`*multipart.FileHeader` in the Go code; `none` models a nil header). -/
structure Upload where
  filename : String
  content : List Nat
deriving DecidableEq, Repr

/-- One element of the `GetFiles` response
(`filesRepositoryAdapterPort.FileResult`). -/
structure FileResult where
  name : String
  isDir : Bool
  size : Option Nat
  mimeType : Option String
deriving DecidableEq, Repr

/-- Model of `info.IsDir()` / `file.IsDir()` on an `Lstat`-style node. -/
def isDirN : Node → Bool
  | Node.dir => true
  | _ => false

/-- Model of `info.Size()` on an `Lstat`-style node: content length for files, target
length for symlinks. -/
def nodeSize : Node → Nat
  | Node.file c _ => c.length
  | Node.symlink t => t.data.length
  | Node.dir => 0

/-- Environment model of Go's `http.DetectContentType`. The adapters only rely
on it being a pure function of the bytes they hand it; the sniffing table is
abstracted to a few representative signatures. -/
def detectContentType (bs : List Nat) : String :=
  if listPre [0xFF, 0xD8, 0xFF] bs then "image/jpeg"
  else if listPre [0x89, 0x50, 0x4E, 0x47] bs then "image/png"
  else "application/octet-stream"

/-! ### The ancestors-only symlink walk

Each hardened operation contains the same loop:

    current := <start>
    for {
        if current == baseAbs || current == string(filepath.Separator) { break }
        info, err := os.Lstat(current)
        if err != nil { <per-op stat-error result> }
        if info.Mode()&os.ModeSymlink != 0 { <per-op symlink result> }
        current = filepath.Dir(current)
    }

The loop is embedded once over the reversed segment list of the start path
(`filepath.Dir` drops the last segment of a cleaned absolute path), and each
operation maps the two abort outcomes to its own error values, exactly as its
own copy of the loop does. -/

/-- Outcome of the ancestor walk. -/
inductive WalkRes where
  | ok : WalkRes
  | symlinkFound : WalkRes
  | statMissing : String → WalkRes
deriving DecidableEq, Repr

/-- Render a reversed segment list as the absolute path it denotes
(`[]` renders as `/`, the loop's second break condition). -/
def renderAbs (rev : List Seg) : String :=
  String.mk ('/' :: joinSegs rev.reverse)

/-- Reversed segment list of a cleaned absolute path. -/
def revSegs (p : String) : List Seg := (pathSegs p).reverse

/-- The shared ancestor-walk loop (see above). -/
def walkRev (fs : FS) (baseAbs : String) : List Seg → WalkRes
  | [] => .ok
  | seg :: rest =>
    let current := renderAbs (seg :: rest)
    if current = baseAbs then .ok
    else
      match lstat fs current with
      | none => .statMissing current
      | some (Node.symlink _) => .symlinkFound
      | some _ => walkRev fs baseAbs rest

/-! ### DeleteDir's full-tree walk with depth limit -/

/-- The `maxDepth` constant of `DeleteDir`. -/
def maxDepth : Nat := 5

/-- The entries `filepath.WalkDir(targetAbs, ...)` visits: the target and
everything below it, in the walk's lexical depth-first order (modelled as the
sorted full paths; the claims' conclusions do not depend on the order). -/
def subtreeEntries (fs : FS) (t : String) : List (String × Node) :=
  List.insertionSort (fun a b => strLt b.1 a.1 = false)
    (fs.filter (fun e => decide (e.1 = t) || hasPre e.1 (t ++ "/")))

/-- The body of `DeleteDir`'s walk callback for one visited entry: the depth
check, then for symlinks `EvalSymlinks` plus the containment re-check. Every
error it produces is an untyped `fmt.Errorf` error. -/
def entryCheck (fs : FS) (baseAbs targetAbs : String) (e : String × Node) : Option Err :=
  let rel := goRel targetAbs e.1
  if countSlash rel > maxDepth then
    some (.osError ("max directory depth exceeded at " ++ e.1))
  else
    match e.2 with
    | Node.symlink _ =>
      match evalSymlinks fs e.1 with
      | none => some (.osError ("failed to resolve symlink " ++ e.1))
      | some resolvedAbs =>
        if hasPre (goRel baseAbs (goAbs resolvedAbs)) ".." then
          some (.osError ("symlink " ++ e.1 ++ " points outside base dir"))
        else none
    | _ => none

/-- Model of `filepath.WalkDir` over the target subtree, aborting at the first error
the callback returns. -/
def walkTree (fs : FS) (baseAbs targetAbs : String) : Option Err :=
  (subtreeEntries fs targetAbs).findSome? (entryCheck fs baseAbs targetAbs)

/-! ### The hardened adapters

Each definition follows its Go function line by line; the filesystem is
threaded explicitly, and `(result, fs)` pairs make "no mutation" statable as
equality of the returned filesystem with the input. -/

namespace Hardened

/-- Hardened `dirs` adapter `CreateDir`. -/
def CreateDir (root : String) (fs : FS) (path : String) : Except Err Unit × FS :=
  if path = "" then (.error .invalidPath, fs) else
  let cleanPath := goClean path
  if cleanPath = "." ∨ cleanPath = "/" ∨ hasPre cleanPath ".." = true then
    (.error .invalidPath, fs)
  else
  let baseAbs := goAbs root
  let targetAbs := goAbs (goJoin baseAbs cleanPath)
  let relToBase := goRel baseAbs targetAbs
  if hasPre relToBase ".." = true ∨ relToBase = "." then (.error .invalidPath, fs) else
  match lstat fs targetAbs with
  | some info =>
    if isDirN info then (.error .dirExist, fs) else (.error .invalidPath, fs)
  | none =>
    match walkRev fs baseAbs (revSegs (goDir targetAbs)) with
    | .statMissing q => (.error (.osError ("failed to stat " ++ q)), fs)
    | .symlinkFound => (.error .invalidPath, fs)
    | .ok =>
      match mkdirAll fs targetAbs with
      | some fs2 => (.ok (), fs2)
      | none => (.error (.osError "mkdir"), fs)

/-- Hardened `dirs` adapter `DeleteDir`. -/
def DeleteDir (root : String) (fs : FS) (path : String) : Except Err Unit × FS :=
  if path = "" then (.error .invalidPath, fs) else
  let cleanPath := goClean path
  if cleanPath = "." ∨ cleanPath = "/" ∨ hasPre cleanPath ".." = true then
    (.error .invalidPath, fs)
  else
  let baseAbs := goAbs root
  let targetAbs := goAbs (goJoin baseAbs cleanPath)
  let relToBase := goRel baseAbs targetAbs
  if hasPre relToBase ".." = true ∨ relToBase = "." then (.error .invalidPath, fs) else
  match lstat fs targetAbs with
  | none => (.error .dirNotFound, fs)
  | some info =>
    if ¬ isDirN info = true then (.error .invalidPath, fs) else
    match walkTree fs baseAbs targetAbs with
    | some e => (.error e, fs)
    | none => (.ok (), removeAll fs targetAbs)

/-- Hardened `dirs` adapter `RenameDir`. -/
def RenameDir (root : String) (fs : FS) (oldPath newPath : String) :
    Except Err Unit × FS :=
  if oldPath = "" ∨ newPath = "" then (.error .invalidPath, fs) else
  let oldClean := goClean oldPath
  let newClean := goClean newPath
  if oldClean = "." ∨ hasPre oldClean ".." = true ∨
     newClean = "." ∨ hasPre newClean ".." = true then (.error .invalidPath, fs)
  else
  let baseAbs := goAbs root
  let oldAbs := goAbs (goJoin baseAbs oldClean)
  let newAbs := goAbs (goJoin baseAbs newClean)
  if hasPre (goRel baseAbs oldAbs) ".." = true then (.error .invalidPath, fs) else
  if hasPre (goRel baseAbs newAbs) ".." = true then (.error .invalidPath, fs) else
  match lstat fs oldAbs with
  | none => (.error .dirOldNotFound, fs)
  | some info =>
    if ¬ isDirN info = true then (.error .invalidPath, fs) else
    match lstat fs newAbs with
    | some _ => (.error .dirNewExist, fs)
    | none =>
      match walkRev fs baseAbs (revSegs (goDir oldAbs)) with
      | .statMissing _ => (.error .invalidPath, fs)
      | .symlinkFound => (.error .invalidPath, fs)
      | .ok =>
        match walkRev fs baseAbs (revSegs (goDir newAbs)) with
        | .statMissing _ => (.error .invalidPath, fs)
        | .symlinkFound => (.error .invalidPath, fs)
        | .ok =>
          match renameEntry fs oldAbs newAbs with
          | some fs2 => (.ok (), fs2)
          | none => (.error (.osError "rename"), fs)

/-- Hardened `files` adapter `CreateFile`. -/
def CreateFile (root : String) (fs : FS) (path : String) (file : Option Upload) :
    Except Err Unit × FS :=
  match file with
  | none => (.error .invalidFile, fs)
  | some f =>
    if f.filename = "" then (.error .invalidFile, fs) else
    let cleanPath0 := goClean path
    let cleanPath := if cleanPath0 = "." then "" else cleanPath0
    if hasPre cleanPath ".." = true then (.error .invalidPath, fs) else
    let baseAbs := goAbs root
    let targetDirAbs := goAbs (goJoin baseAbs cleanPath)
    if hasPre (goRel baseAbs targetDirAbs) ".." = true then (.error .invalidPath, fs) else
    match walkRev fs baseAbs (revSegs targetDirAbs) with
    | .statMissing q => (.error (.osError ("failed to stat " ++ q)), fs)
    | .symlinkFound => (.error .invalidPath, fs)
    | .ok =>
      match stat fs targetDirAbs with
      | none => (.error .dirNotFound, fs)
      | some info =>
        if ¬ isDirN info = true then (.error .invalidPath, fs) else
        let filename := goJoin targetDirAbs (goBase f.filename)
        match stat fs filename with
        | some _ => (.error .fileExist, fs)
        | none =>
          match createF fs filename f.content with
          | some fs2 => (.ok (), fs2)
          | none => (.error (.osError "create"), fs)

/-- One element of the `GetFiles` response for a directory child: name and
`IsDir` always; for non-directories also the size and, best-effort, the MIME
type sniffed from at most the first 512 bytes (`buf := make([]byte, 512)`),
omitted when `os.Open` fails. -/
def buildEntry (fs : FS) (dirAbs : String) (e : String × Node) : FileResult :=
  if isDirN e.2 then
    { name := e.1, isDir := true, size := none, mimeType := none }
  else
    { name := e.1
      isDir := false
      size := some (nodeSize e.2)
      mimeType :=
        match openFile fs (goJoin dirAbs e.1) with
        | some content => some (detectContentType (content.take 512))
        | none => none }

/-- The `sort.Slice` comparator of `GetFiles`: directories first, then
lexicographically by name. -/
def fileLess (a b : FileResult) : Bool :=
  if a.isDir ≠ b.isDir then a.isDir else strLt a.name b.name

/-- The non-strict order induced by `fileLess`, used to express the sorted
result (`sort.Slice` guarantees `¬ fileLess (l[j]) (l[i])` for `i ≤ j`). -/
def fileLe (a b : FileResult) : Bool := !(fileLess b a)

/-- Hardened `files` adapter `GetFiles` (read-only, so no filesystem is
returned). -/
def GetFiles (root : String) (fs : FS) (path : String) :
    Except Err (List FileResult) :=
  let cleanPath := goClean path
  if cleanPath = ".." ∨ hasPre cleanPath ".." = true then .error .invalidPath else
  let baseAbs := goAbs root
  let targetAbs := goAbs (goJoin baseAbs cleanPath)
  if hasPre (goRel baseAbs targetAbs) ".." = true then .error .invalidPath else
  match walkRev fs baseAbs (revSegs targetAbs) with
  | .statMissing _ => .error .invalidPath
  | .symlinkFound => .error .invalidPath
  | .ok =>
    match stat fs targetAbs with
    | none => .error .dirNotFound
    | some info =>
      if ¬ isDirN info = true then .error .invalidPath else
      let response := (readDirChildren fs targetAbs).map (buildEntry fs targetAbs)
      .ok (List.insertionSort (fun a b => fileLe a b = true) response)

/-- Hardened `files` adapter `DeleteFile`. -/
def DeleteFile (root : String) (fs : FS) (path : String) : Except Err Unit × FS :=
  if path = "" then (.error .invalidPath, fs) else
  let cleanPath := goClean path
  if cleanPath = "." ∨ hasPre cleanPath ".." = true then (.error .invalidPath, fs) else
  let baseAbs := goAbs root
  let targetFileAbs := goAbs (goJoin baseAbs cleanPath)
  if hasPre (goRel baseAbs targetFileAbs) ".." = true then (.error .invalidPath, fs) else
  match walkRev fs baseAbs (revSegs (goDir targetFileAbs)) with
  | .statMissing q => (.error (.osError ("failed to stat " ++ q)), fs)
  | .symlinkFound => (.error .invalidPath, fs)
  | .ok =>
    match stat fs targetFileAbs with
    | none => (.error .fileNotFound, fs)
    | some info =>
      if isDirN info then (.error .invalidPath, fs) else
      match removeOne fs targetFileAbs with
      | some fs2 => (.ok (), fs2)
      | none => (.error (.osError "remove"), fs)

/-- Hardened `files` adapter `RenameFile`. -/
def RenameFile (root : String) (fs : FS) (oldPath newPath : String) :
    Except Err Unit × FS :=
  if oldPath = "" ∨ newPath = "" then (.error .invalidPath, fs) else
  let cleanOld := goClean oldPath
  let cleanNew := goClean newPath
  if cleanOld = "." ∨ hasPre cleanOld ".." = true then (.error .invalidPath, fs) else
  if cleanNew = "." ∨ hasPre cleanNew ".." = true then (.error .invalidPath, fs) else
  let baseAbs := goAbs root
  let oldAbs := goAbs (goJoin baseAbs cleanOld)
  let newAbs := goAbs (goJoin baseAbs cleanNew)
  if hasPre (goRel baseAbs oldAbs) ".." = true then (.error .invalidPath, fs) else
  if hasPre (goRel baseAbs newAbs) ".." = true then (.error .invalidPath, fs) else
  match walkRev fs baseAbs (revSegs (goDir oldAbs)) with
  | .statMissing _ => (.error .invalidPath, fs)
  | .symlinkFound => (.error .invalidPath, fs)
  | .ok =>
    match walkRev fs baseAbs (revSegs (goDir newAbs)) with
    | .statMissing _ => (.error .invalidPath, fs)
    | .symlinkFound => (.error .invalidPath, fs)
    | .ok =>
      match stat fs oldAbs with
      | none => (.error .fileOldNotFound, fs)
      | some oldInfo =>
        if isDirN oldInfo then (.error .invalidPath, fs) else
        match stat fs newAbs with
        | some newInfo =>
          if isDirN newInfo then (.error .invalidPath, fs)
          else (.error .fileNewExist, fs)
        | none =>
          match renameEntry fs oldAbs newAbs with
          | some fs2 => (.ok (), fs2)
          | none => (.error (.osError "rename"), fs)

end Hardened

/-! ### The naive adapters (known-bad variants, no traversal protection)

`internal/adapter/repository/dirs/adapter.go` and the naive files adapter
concatenate the raw request path onto the store root and call the OS
directly. -/

namespace Naive

/-- Naive `dirs` adapter `CreateDir`: raw concatenation, then `os.MkdirAll`.
The `os.IsExist(err)` branch after `os.Stat` is dead code (`Stat` never
returns an exists-error), so the flow always reaches `MkdirAll`. -/
def CreateDir (root : String) (fs : FS) (path : String) : Except Err Unit × FS :=
  let p := root ++ "/" ++ path
  match mkdirAll fs p with
  | some fs2 => (.ok (), fs2)
  | none => (.error (.osError "mkdir"), fs)

/-- Naive `files` adapter `CreateFile`: raw concatenation of directory path
and the declared file name (not even its base name), existence checks, then
`os.Create`. -/
def CreateFile (root : String) (fs : FS) (path : String) (file : Upload) :
    Except Err Unit × FS :=
  let dirPath := if path = "" then root else root ++ "/" ++ path
  match stat fs dirPath with
  | none => (.error .dirNotFound, fs)
  | some _ =>
    let filename := dirPath ++ "/" ++ file.filename
    match stat fs filename with
    | some _ => (.error .fileExist, fs)
    | none =>
      match createF fs filename file.content with
      | some fs2 => (.ok (), fs2)
      | none => (.error (.osError "create"), fs)

end Naive

/-! ### Abbreviations and concrete fixtures used by the theorems -/

/-- The resolved absolute target an operation computes for the request path
`rel` under store root `root` (the `targetAbs` of the Go functions). -/
def targetOf (root rel : String) : String :=
  goAbs (goJoin (goAbs root) (goClean rel))

/-- The ancestors-only walk an operation runs from `start` under store root
`root` (each Go function's inlined loop). -/
def ancWalk (fs : FS) (root start : String) : WalkRes :=
  walkRev fs (goAbs root) (revSegs start)

/-- A filesystem containing only the store root. -/
def rootOnlyFS : FS := [("/", Node.dir), ("/base", Node.dir)]

/-- A filesystem with the root and one directory `d` under it. -/
def rootWithDirFS : FS := [("/", Node.dir), ("/base", Node.dir), ("/base/d", Node.dir)]

/-- Witness filesystem for C2: the root, a file `f` and a directory `d2`. -/
def claim2FS : FS := [("/", Node.dir), ("/base", Node.dir),
  ("/base/f", Node.file [9] true), ("/base/d2", Node.dir)]

/-- Counterexample filesystem for C3: the root, a directory `d`, and a
symlink `s` to `d` (so `/base/s` is a component strictly between the resolved
target `/base/s/x` and the root; `/base/s/x` does not exist, not even through
the link). -/
def claim3CexFS : FS := [("/", Node.dir), ("/base", Node.dir),
  ("/base/d", Node.dir), ("/base/s", Node.symlink "/base/d")]

/-- Witness filesystem for C3: the root, a directory `d`, a symlink `s1`
pointing at `d` (inside the root), and a directory reachable as `s1/g`
(modelling the on-disk `d/g` seen through the link, as the OS path lookup
presents it). -/
def claim3FS : FS := [("/", Node.dir), ("/base", Node.dir), ("/base/d", Node.dir),
  ("/base/s1", Node.symlink "/base/d"), ("/base/s1/g", Node.dir)]

/-- Membership of an entry in the subtree `DeleteDir` walks: the target
itself or anything below it. -/
def inSubtree (t : String) (e : String × Node) : Prop :=
  e.1 = t ∨ hasPre e.1 (t ++ "/") = true

instance (t : String) (e : String × Node) : Decidable (inSubtree t e) := by
  unfold inSubtree
  infer_instance

/-- The walk's depth measure of an entry: separators in its path relative to
the deletion target. -/
def entryDepth (t : String) (e : String × Node) : Nat := countSlash (goRel t e.1)

/-- Whether a node is a symbolic link. -/
def isSymN : Node → Bool
  | Node.symlink _ => true
  | _ => false

/-- Deep filesystem for C5: the entry `t/a/b/c/d/e/f/g` sits 6 separators
below the deletion target `t`, exceeding `maxDepth = 5`. -/
def claim5DeepFS : FS := [("/", Node.dir), ("/base", Node.dir), ("/base/t", Node.dir),
  ("/base/t/a", Node.dir), ("/base/t/a/b", Node.dir), ("/base/t/a/b/c", Node.dir),
  ("/base/t/a/b/c/d", Node.dir), ("/base/t/a/b/c/d/e", Node.dir),
  ("/base/t/a/b/c/d/e/f", Node.dir), ("/base/t/a/b/c/d/e/f/g", Node.dir)]

/-- Shallow filesystem for C5: the deepest entry `t/a/b/c/d/e` sits 5
separators below the target, within the bound. -/
def claim5ShallowFS : FS := [("/", Node.dir), ("/base", Node.dir), ("/base/t", Node.dir),
  ("/base/t/a", Node.dir), ("/base/t/a/b", Node.dir), ("/base/t/a/b/c", Node.dir),
  ("/base/t/a/b/c/d", Node.dir), ("/base/t/a/b/c/d/e", Node.dir)]

/-- Fixture for C6: the root, the store root, and a directory `/x` outside
it. -/
def claim6FS : FS := [("/", Node.dir), ("/base", Node.dir), ("/x", Node.dir)]

/-- Fixture for C7: two files and a directory under the root. -/
def claim7FS : FS := [("/", Node.dir), ("/base", Node.dir),
  ("/base/a.txt", Node.file [7] true), ("/base/b.txt", Node.file [8] true),
  ("/base/d", Node.dir)]

/-- Fixture for C8: a directory `d` with children `{b.txt, a, c.txt}` (the
spec's listing-order example) and an empty directory `d2`. -/
def claim8FS : FS := [("/", Node.dir), ("/base", Node.dir), ("/base/d", Node.dir),
  ("/base/d/b.txt", Node.file [1, 2] true), ("/base/d/a", Node.dir),
  ("/base/d/c.txt", Node.file [3] true), ("/base/d2", Node.dir)]

/-- Fixture for C9: a directory `d` with an unreadable file `u.bin` and a
readable file `v.bin`. -/
def claim9FS : FS := [("/", Node.dir), ("/base", Node.dir), ("/base/d", Node.dir),
  ("/base/d/u.bin", Node.file [1, 2, 3] false), ("/base/d/v.bin", Node.file [4, 5] true)]

/-- Fixture for C10: a symlink `ln` whose target `in` is a directory inside
the sandbox root. -/
def claim10FS : FS := [("/", Node.dir), ("/base", Node.dir), ("/base/in", Node.dir),
  ("/base/ln", Node.symlink "/base/in")]

/-! ### Claim C1 -/

/-- C1 counterexample: the claim says every input path containing a `..`
segment, and every input with an absolute prefix, yields `InvalidPath` with no
mutation. On the code, `a/../b` (which contains a `..` segment) is cleaned to
`b` and `CreateDir` succeeds and creates `/base/b`; likewise the absolute
input `/x` is silently joined onto the root and creates `/base/x`. -/
theorem claim1_counterexample :
    Hardened.CreateDir "/base" rootOnlyFS "a/../b" =
      (.ok (), ("/base/b", Node.dir) :: rootOnlyFS) ∧
    ("/base/b", Node.dir) :: rootOnlyFS ≠ rootOnlyFS ∧
    Hardened.CreateDir "/base" rootOnlyFS "/x" =
      (.ok (), ("/base/x", Node.dir) :: rootOnlyFS) := by
  decide

/-- C1 (amended): an input path is rejected for escaping exactly when its
lexically cleaned form begins with `..` (equivalently, when it would resolve
outside the sandbox root). For every such path, every one of the seven
hardened operations — with the path in either argument position for the
renames — returns `InvalidPath` and leaves the filesystem unmodified. Inputs
that merely contain `..` segments, or carry an absolute prefix, but resolve
inside the root are not rejected (see the counterexample). -/
theorem claim1_amended (root : String) (fs : FS) (p q : String) (up : Upload)
    (hup : ¬ up.filename = "")
    (h : hasPre (goClean p) ".." = true) :
    Hardened.CreateDir root fs p = (.error .invalidPath, fs) ∧
    Hardened.DeleteDir root fs p = (.error .invalidPath, fs) ∧
    Hardened.RenameDir root fs p q = (.error .invalidPath, fs) ∧
    Hardened.RenameDir root fs q p = (.error .invalidPath, fs) ∧
    Hardened.CreateFile root fs p (some up) = (.error .invalidPath, fs) ∧
    Hardened.GetFiles root fs p = .error .invalidPath ∧
    Hardened.DeleteFile root fs p = (.error .invalidPath, fs) ∧
    Hardened.RenameFile root fs p q = (.error .invalidPath, fs) ∧
    Hardened.RenameFile root fs q p = (.error .invalidPath, fs) := by
  have hpne : ¬ p = "" := by
    intro he
    rw [he] at h
    exact absurd h (by decide)
  have hdot : ¬ goClean p = "." := by
    intro he
    rw [he] at h
    exact absurd h (by decide)
  refine ⟨?_, ?_, ?_, ?_, ?_, ?_, ?_, ?_, ?_⟩
  · simp [Hardened.CreateDir, hpne, h]
  · simp [Hardened.DeleteDir, hpne, h]
  · by_cases hq : q = "" <;> simp [Hardened.RenameDir, hpne, hq, h]
  · by_cases hq : q = "" <;> simp [Hardened.RenameDir, hpne, hq, h]
  · simp [Hardened.CreateFile, hup, hdot, h]
  · simp [Hardened.GetFiles, h]
  · simp [Hardened.DeleteFile, hpne, h]
  · by_cases hq : q = "" <;> simp [Hardened.RenameFile, hpne, hq, h]
  · by_cases hq : q = ""
    · simp [Hardened.RenameFile, hq]
    · by_cases hqd : goClean q = "."
      · simp [Hardened.RenameFile, hpne, hq, hqd]
      · by_cases hqp : hasPre (goClean q) ".." = true
        · simp [Hardened.RenameFile, hpne, hq, hqp]
        · simp [Hardened.RenameFile, hpne, hq, hqd, hqp, h]

/-- C1 witness: the amended theorem applied at the concrete escaping path
`../z` over the empty filesystem. -/
theorem claim1_witness :
    hasPre (goClean "../z") ".." = true ∧
    (Hardened.CreateDir "/base" [] "../z" = (.error .invalidPath, []) ∧
     Hardened.DeleteDir "/base" [] "../z" = (.error .invalidPath, []) ∧
     Hardened.RenameDir "/base" [] "../z" "ok" = (.error .invalidPath, []) ∧
     Hardened.RenameDir "/base" [] "ok" "../z" = (.error .invalidPath, []) ∧
     Hardened.CreateFile "/base" [] "../z" (some ⟨"f", []⟩) = (.error .invalidPath, []) ∧
     Hardened.GetFiles "/base" [] "../z" = .error .invalidPath ∧
     Hardened.DeleteFile "/base" [] "../z" = (.error .invalidPath, []) ∧
     Hardened.RenameFile "/base" [] "../z" "ok" = (.error .invalidPath, []) ∧
     Hardened.RenameFile "/base" [] "ok" "../z" = (.error .invalidPath, [])) :=
  ⟨by decide, claim1_amended "/base" [] "../z" "ok" ⟨"f", []⟩ (by decide) (by decide)⟩

/-! ### Claim C2 -/

/-- C2 counterexample: the claim says every mutation operation rejects a
root-denoting input (normalized `.` or `/`, or empty post-join relative path)
with `InvalidPath`. `RenameDir`'s validation checks only `.` and leading `..`
and omits both the `/` case and the empty-relative-path case, so renaming `d`
onto the new path `/` — which denotes the sandbox root itself — is answered
with `DirNewExist`, not `InvalidPath`. -/
theorem claim2_counterexample :
    Hardened.RenameDir "/base" rootWithDirFS "d" "/" =
      (.error .dirNewExist, rootWithDirFS) ∧
    ¬ (Err.dirNewExist = Err.invalidPath) := by
  decide

/-- C2 (amended): `CreateDir`, `DeleteDir`, `DeleteFile` and `RenameFile`
reject every root-denoting input path (normalized form `.` or `/`, which are
exactly the inputs with empty post-join relative path; the empty string
normalizes to `.`) with `InvalidPath` and do not mutate; so does `RenameDir`
for the normalized form `.`. For the normalized form `/`, however,
`RenameDir`'s validation does not fire: with `/` as the new path the
operation reports `DirNewExist` (the root exists), so the sandbox root still
cannot be created, deleted or renamed, but the error kind deviates from the
claim for `RenameDir`. -/
theorem claim2_amended (fs : FS) (p : String) (c : List Nat) (b : Bool)
    (hp : goClean p = "." ∨ goClean p = "/")
    (hbase : lstat fs "/base" = some Node.dir)
    (hf : lstat fs "/base/f" = some (Node.file c b))
    (hd2 : lstat fs "/base/d2" = some Node.dir) :
    Hardened.CreateDir "/base" fs p = (.error .invalidPath, fs) ∧
    Hardened.DeleteDir "/base" fs p = (.error .invalidPath, fs) ∧
    Hardened.DeleteFile "/base" fs p = (.error .invalidPath, fs) ∧
    Hardened.RenameFile "/base" fs p "q" = (.error .invalidPath, fs) ∧
    Hardened.RenameFile "/base" fs "f" "/" = (.error .invalidPath, fs) ∧
    Hardened.RenameDir "/base" fs "." "q" = (.error .invalidPath, fs) ∧
    Hardened.RenameDir "/base" fs "d2" "/" = (.error .dirNewExist, fs) := by
  have hbK : lstat fs (goAbs (goJoin (goAbs "/base") "/")) = some Node.dir := by
    rw [show goAbs (goJoin (goAbs "/base") "/") = "/base" from by decide]
    exact hbase
  have hbC : lstat fs (goAbs (goJoin (goAbs "/base") (goClean "/"))) = some Node.dir := by
    rw [show goAbs (goJoin (goAbs "/base") (goClean "/")) = "/base" from by decide]
    exact hbase
  have hfK : lstat fs (goAbs (goJoin (goAbs "/base") (goClean "f"))) =
      some (Node.file c b) := by
    rw [show goAbs (goJoin (goAbs "/base") (goClean "f")) = "/base/f" from by decide]
    exact hf
  have hdK : lstat fs (goAbs (goJoin (goAbs "/base") (goClean "d2"))) = some Node.dir := by
    rw [show goAbs (goJoin (goAbs "/base") (goClean "d2")) = "/base/d2" from by decide]
    exact hd2
  refine ⟨?_, ?_, ?_, ?_, ?_, ?_, ?_⟩
  · by_cases hpe : p = ""
    · simp [Hardened.CreateDir, hpe]
    · rcases hp with hp | hp <;> simp +decide [Hardened.CreateDir, hpe, hp]
  · by_cases hpe : p = ""
    · simp [Hardened.DeleteDir, hpe]
    · rcases hp with hp | hp <;> simp +decide [Hardened.DeleteDir, hpe, hp]
  · by_cases hpe : p = ""
    · simp [Hardened.DeleteFile, hpe]
    · rcases hp with hp | hp
      · simp +decide [Hardened.DeleteFile, hpe, hp]
      · simp +decide [Hardened.DeleteFile, hpe, hp, stat, statFuel, walkRev, hbK,
          show revSegs (goDir (goAbs (goJoin (goAbs "/base") "/"))) = ([] : List Seg)
            from by decide]
  · by_cases hpe : p = ""
    · simp [Hardened.RenameFile, hpe]
    · rcases hp with hp | hp
      · simp +decide [Hardened.RenameFile, hpe, hp]
      · simp +decide [Hardened.RenameFile, hpe, hp, stat, statFuel, walkRev, hbK,
          show revSegs (goDir (goAbs (goJoin (goAbs "/base") "/"))) = ([] : List Seg)
            from by decide,
          show revSegs (goDir (goAbs (goJoin (goAbs "/base") (goClean "q")))) =
            [['b', 'a', 's', 'e']] from by decide]
  · simp +decide [Hardened.RenameFile, stat, statFuel, walkRev, hbC, hfK,
      show revSegs (goDir (goAbs (goJoin (goAbs "/base") (goClean "/")))) = ([] : List Seg)
        from by decide,
      show revSegs (goDir (goAbs (goJoin (goAbs "/base") (goClean "f")))) =
        [['b', 'a', 's', 'e']] from by decide]
  · simp +decide [Hardened.RenameDir]
  · simp +decide [Hardened.RenameDir, hbC, hdK]

/-- C2 witness: the amended theorem applied at the root-denoting path `/`
over a concrete filesystem. -/
theorem claim2_witness :
    (goClean "/" = "." ∨ goClean "/" = "/") ∧
    (Hardened.CreateDir "/base" claim2FS "/" = (.error .invalidPath, claim2FS) ∧
     Hardened.DeleteDir "/base" claim2FS "/" = (.error .invalidPath, claim2FS) ∧
     Hardened.DeleteFile "/base" claim2FS "/" = (.error .invalidPath, claim2FS) ∧
     Hardened.RenameFile "/base" claim2FS "/" "q" = (.error .invalidPath, claim2FS) ∧
     Hardened.RenameFile "/base" claim2FS "f" "/" = (.error .invalidPath, claim2FS) ∧
     Hardened.RenameDir "/base" claim2FS "." "q" = (.error .invalidPath, claim2FS) ∧
     Hardened.RenameDir "/base" claim2FS "d2" "/" = (.error .dirNewExist, claim2FS)) :=
  ⟨by decide,
   claim2_amended claim2FS "/" [9] true (by decide) (by decide) (by decide) (by decide)⟩

/-! ### Claim C3 -/

/-- C3 counterexample: the claim says every listed operation returns
`InvalidPath` whenever a directory component strictly between the resolved
target and the root is a symbolic link. `RenameDir` runs its existence checks
before its symlink walk: with the old path `s/x` (whose component `/base/s`
is a symlink) the stat of the nonexistent old target answers first, and the
operation returns `DirOldNotFound`, not `InvalidPath`. -/
theorem claim3_counterexample :
    Hardened.RenameDir "/base" claim3CexFS "s/x" "y" =
      (.error .dirOldNotFound, claim3CexFS) ∧
    ¬ (Err.dirOldNotFound = Err.invalidPath) := by
  decide

/-- C3 (amended): the ancestors-only guard does reject a symbolic-link
component strictly between the resolved target and the root with
`InvalidPath` and without mutating, for `CreateDir` (target not existing),
`GetFiles`, `CreateFile` and `DeleteFile`, where the walk runs before the
existence checks; for `RenameDir` and `RenameFile` the walk runs only after
(`RenameDir`) or before the target stats but after validation
(`RenameFile`), so the rejection is `InvalidPath` only once the checks
sequenced before the walk pass — e.g. an old directory that exists and a new
path that does not (otherwise an existence error such as `DirOldNotFound`
answers instead, see the counterexample). In every case the filesystem is
left unmodified. The symlink is rejected regardless of where it resolves to
(the target `t` is arbitrary, in particular a location inside the root). -/
theorem claim3_amended (fs : FS) (t : String)
    (hs : lstat fs "/base/s1" = some (Node.symlink t))
    (hc1 : lstat fs "/base/s1/c1" = none)
    (hg : lstat fs "/base/s1/g" = some Node.dir)
    (hd : lstat fs "/base/d" = some Node.dir)
    (hn2 : lstat fs "/base/s1/n2" = none) :
    Hardened.CreateDir "/base" fs "s1/c1" = (.error .invalidPath, fs) ∧
    Hardened.GetFiles "/base" fs "s1/g" = .error .invalidPath ∧
    Hardened.CreateFile "/base" fs "s1/g" (some ⟨"f.txt", [1]⟩) =
      (.error .invalidPath, fs) ∧
    Hardened.DeleteFile "/base" fs "s1/f1" = (.error .invalidPath, fs) ∧
    Hardened.RenameFile "/base" fs "d/f2" "s1/n" = (.error .invalidPath, fs) ∧
    Hardened.RenameDir "/base" fs "d" "s1/n2" = (.error .invalidPath, fs) := by
  have hsR : lstat fs (renderAbs [['s', '1'], ['b', 'a', 's', 'e']]) =
      some (Node.symlink t) := by
    rw [show renderAbs [['s', '1'], ['b', 'a', 's', 'e']] = "/base/s1" from by decide]
    exact hs
  have hgR : lstat fs (renderAbs [['g'], ['s', '1'], ['b', 'a', 's', 'e']]) =
      some Node.dir := by
    rw [show renderAbs [['g'], ['s', '1'], ['b', 'a', 's', 'e']] = "/base/s1/g"
      from by decide]
    exact hg
  have hdR : lstat fs (renderAbs [['d'], ['b', 'a', 's', 'e']]) = some Node.dir := by
    rw [show renderAbs [['d'], ['b', 'a', 's', 'e']] = "/base/d" from by decide]
    exact hd
  have hcK : lstat fs (goAbs (goJoin (goAbs "/base") (goClean "s1/c1"))) = none := by
    rw [show goAbs (goJoin (goAbs "/base") (goClean "s1/c1")) = "/base/s1/c1"
      from by decide]
    exact hc1
  have hdK : lstat fs (goAbs (goJoin (goAbs "/base") (goClean "d"))) = some Node.dir := by
    rw [show goAbs (goJoin (goAbs "/base") (goClean "d")) = "/base/d" from by decide]
    exact hd
  have hnK : lstat fs (goAbs (goJoin (goAbs "/base") (goClean "s1/n2"))) = none := by
    rw [show goAbs (goJoin (goAbs "/base") (goClean "s1/n2")) = "/base/s1/n2"
      from by decide]
    exact hn2
  refine ⟨?_, ?_, ?_, ?_, ?_, ?_⟩
  · simp +decide [Hardened.CreateDir, walkRev, hcK, hsR,
      show revSegs (goDir (goAbs (goJoin (goAbs "/base") (goClean "s1/c1")))) =
        [['s', '1'], ['b', 'a', 's', 'e']] from by decide]
  · simp +decide [Hardened.GetFiles, walkRev, hgR, hsR,
      show revSegs (goAbs (goJoin (goAbs "/base") (goClean "s1/g"))) =
        [['g'], ['s', '1'], ['b', 'a', 's', 'e']] from by decide]
  · simp +decide [Hardened.CreateFile, walkRev, hgR, hsR,
      show revSegs (goAbs (goJoin (goAbs "/base") (goClean "s1/g"))) =
        [['g'], ['s', '1'], ['b', 'a', 's', 'e']] from by decide]
  · simp +decide [Hardened.DeleteFile, walkRev, hsR,
      show revSegs (goDir (goAbs (goJoin (goAbs "/base") (goClean "s1/f1")))) =
        [['s', '1'], ['b', 'a', 's', 'e']] from by decide]
  · simp +decide [Hardened.RenameFile, walkRev, hdR, hsR,
      show revSegs (goDir (goAbs (goJoin (goAbs "/base") (goClean "d/f2")))) =
        [['d'], ['b', 'a', 's', 'e']] from by decide,
      show revSegs (goDir (goAbs (goJoin (goAbs "/base") (goClean "s1/n")))) =
        [['s', '1'], ['b', 'a', 's', 'e']] from by decide]
  · simp +decide [Hardened.RenameDir, walkRev, hdK, hnK, hsR,
      show revSegs (goDir (goAbs (goJoin (goAbs "/base") (goClean "d")))) =
        [['b', 'a', 's', 'e']] from by decide,
      show revSegs (goDir (goAbs (goJoin (goAbs "/base") (goClean "s1/n2")))) =
        [['s', '1'], ['b', 'a', 's', 'e']] from by decide]

/-- C3 witness: the amended theorem applied over `claim3FS`, with the symlink
resolving inside the sandbox root. -/
theorem claim3_witness :
    lstat claim3FS "/base/s1" = some (Node.symlink "/base/d") ∧
    (Hardened.CreateDir "/base" claim3FS "s1/c1" = (.error .invalidPath, claim3FS) ∧
     Hardened.GetFiles "/base" claim3FS "s1/g" = .error .invalidPath ∧
     Hardened.CreateFile "/base" claim3FS "s1/g" (some ⟨"f.txt", [1]⟩) =
       (.error .invalidPath, claim3FS) ∧
     Hardened.DeleteFile "/base" claim3FS "s1/f1" = (.error .invalidPath, claim3FS) ∧
     Hardened.RenameFile "/base" claim3FS "d/f2" "s1/n" = (.error .invalidPath, claim3FS) ∧
     Hardened.RenameDir "/base" claim3FS "d" "s1/n2" = (.error .invalidPath, claim3FS)) :=
  ⟨by decide,
   claim3_amended claim3FS "/base/d" (by decide) (by decide) (by decide) (by decide)
     (by decide)⟩

/-! ### Claim C4 -/

/-- Helper for C4: every error `DeleteDir`'s tree-walk callback can produce is
an untyped `fmt.Errorf` error, never a typed sentinel such as `InvalidPath`. -/
theorem entryCheck_osError (fs : FS) (b t : String) (x : String × Node) (e : Err)
    (h : entryCheck fs b t x = some e) : ∃ m, e = Err.osError m := by
  simp only [entryCheck] at h
  split at h
  · injection h with h2
    exact ⟨_, h2.symm⟩
  · split at h
    · split at h
      · injection h with h2
        exact ⟨_, h2.symm⟩
      · split at h
        · injection h with h2
          exact ⟨_, h2.symm⟩
        · cases h
    · cases h

/-- C4 counterexample: the claim says a stat error on an ancestor component
aborts the operation with the `InvalidPath` error kind. In `CreateDir` the
ancestor walk wraps the stat error with `fmt.Errorf` instead: creating `a/b`
when `/base/a` does not exist aborts with the untyped wrapped error, not
`InvalidPath` (and without mutating). -/
theorem claim4_counterexample :
    Hardened.CreateDir "/base" rootOnlyFS "a/b" =
      (.error (.osError "failed to stat /base/a"), rootOnlyFS) ∧
    ¬ (Err.osError "failed to stat /base/a" = Err.invalidPath) := by
  decide

/-- C4 (amended): detection is indeed fail-closed — a stat or resolve error on
an ancestor component or on a tree entry aborts the operation before any
mutation — but the error kind is `InvalidPath` only where the operation maps
it so (`GetFiles`, and the rename walks); `CreateDir` (like `CreateFile` and
`DeleteFile`) wraps the ancestor stat error as an untyped error, and every
failure of `DeleteDir`'s tree walk (depth, symlink resolution, escape) is an
untyped error as well. -/
theorem claim4_amended (fs : FS) (q r : String)
    (h1 : lstat fs (targetOf "/base" "a/b") = none)
    (h2 : ancWalk fs "/base" (goDir (targetOf "/base" "a/b")) = .statMissing q)
    (h3 : ancWalk fs "/base" (targetOf "/base" "g") = .statMissing r)
    (h4 : lstat fs (targetOf "/base" "t") = some Node.dir) :
    Hardened.CreateDir "/base" fs "a/b" =
      (.error (.osError ("failed to stat " ++ q)), fs) ∧
    (∀ m : String, ¬ (Err.osError m = Err.invalidPath)) ∧
    Hardened.GetFiles "/base" fs "g" = .error .invalidPath ∧
    (∀ (gs : FS) (b t : String) (e : Err), walkTree gs b t = some e →
      ∃ m, e = Err.osError m) ∧
    (∀ e : Err, walkTree fs (goAbs "/base") (targetOf "/base" "t") = some e →
      Hardened.DeleteDir "/base" fs "t" = (.error e, fs)) := by
  simp only [targetOf, ancWalk] at h1 h2 h3 h4
  refine ⟨?_, ?_, ?_, ?_, ?_⟩
  · simp +decide [Hardened.CreateDir, h1, h2]
  · intro m h
    cases h
  · simp +decide [Hardened.GetFiles, h3]
  · intro gs b t e h
    obtain ⟨x, _, hx⟩ := List.exists_of_findSome?_eq_some h
    exact entryCheck_osError gs b t x e hx
  · intro e he
    simp only [targetOf] at he
    simp +decide [Hardened.DeleteDir, h4, he]

/-- Witness filesystem for C4: the root, a directory `t`, and below it a
dangling symlink whose resolution fails during the tree walk. -/
def claim4FS : FS := [("/", Node.dir), ("/base", Node.dir), ("/base/t", Node.dir),
  ("/base/t/s", Node.symlink "/nowhere")]

/-- C4 witness: the amended theorem applied over `claim4FS`, with the
`DeleteDir` branch instantiated at the concrete tree-walk error. -/
theorem claim4_witness :
    Hardened.CreateDir "/base" claim4FS "a/b" =
      (.error (.osError "failed to stat /base/a"), claim4FS) ∧
    Hardened.GetFiles "/base" claim4FS "g" = .error .invalidPath ∧
    Hardened.DeleteDir "/base" claim4FS "t" =
      (.error (.osError "failed to resolve symlink /base/t/s"), claim4FS) := by
  obtain ⟨c1, -, c3, -, c5⟩ := claim4_amended claim4FS "/base/a" "/base/g"
    (by decide) (by decide) (by decide) (by decide)
  exact ⟨c1, c3, c5 _ (by decide)⟩

/-! ### Claim C5 -/

/-- Helper: membership in the walked subtree list. -/
theorem mem_subtreeEntries (fs : FS) (t : String) (e : String × Node) :
    e ∈ subtreeEntries fs t ↔ e ∈ fs ∧ inSubtree t e := by
  unfold subtreeEntries inSubtree
  rw [(List.perm_insertionSort _ _).mem_iff, List.mem_filter]
  simp

/-- Helper: on a non-symlink entry the walk callback is exactly the depth
check. -/
theorem entryCheck_no_symlink (fs : FS) (b t : String) (e : String × Node)
    (hns : isSymN e.2 = false) :
    entryCheck fs b t e =
      (if countSlash (goRel t e.1) > maxDepth then
        some (Err.osError ("max directory depth exceeded at " ++ e.1)) else none) := by
  simp only [entryCheck]
  cases h2 : e.2 <;> simp [h2, isSymN] at hns ⊢

/-- C5 (confirmed): for a `DeleteDir` whose target resolves to a directory
and whose subtree contains no symbolic links (so the depth limiter is the
check that can fire during the walk): if some subtree entry lies more than
`maxDepth = 5` separators below the target, the whole operation fails with
the depth-exceeded error and the filesystem is unchanged (nothing is
removed); if no entry exceeds depth 5, the limiter does not trigger and the
deletion proceeds. -/
theorem claim5_thm (fs : FS)
    (hd : lstat fs (targetOf "/base" "t") = some Node.dir)
    (hns : ∀ e ∈ fs, inSubtree (targetOf "/base" "t") e → isSymN e.2 = false) :
    ((∃ e ∈ fs, inSubtree (targetOf "/base" "t") e ∧
        entryDepth (targetOf "/base" "t") e > maxDepth) →
      ∃ q, Hardened.DeleteDir "/base" fs "t" =
        (.error (.osError ("max directory depth exceeded at " ++ q)), fs)) ∧
    ((∀ e ∈ fs, inSubtree (targetOf "/base" "t") e →
        entryDepth (targetOf "/base" "t") e ≤ maxDepth) →
      Hardened.DeleteDir "/base" fs "t" =
        (.ok (), removeAll fs (targetOf "/base" "t"))) := by
  have hdK : lstat fs (goAbs (goJoin (goAbs "/base") (goClean "t"))) = some Node.dir := by
    simpa [targetOf] using hd
  have hchar : ∀ e ∈ subtreeEntries fs (targetOf "/base" "t"),
      entryCheck fs (goAbs "/base") (targetOf "/base" "t") e =
        (if countSlash (goRel (targetOf "/base" "t") e.1) > maxDepth then
          some (Err.osError ("max directory depth exceeded at " ++ e.1)) else none) := by
    intro e he
    obtain ⟨hefs, hesub⟩ := (mem_subtreeEntries fs _ e).1 he
    exact entryCheck_no_symlink _ _ _ _ (hns e hefs hesub)
  constructor
  · rintro ⟨e, hefs, hesub, hdeep⟩
    simp only [entryDepth] at hdeep
    have hmem : e ∈ subtreeEntries fs (targetOf "/base" "t") :=
      (mem_subtreeEntries fs _ e).2 ⟨hefs, hesub⟩
    have hsome : ¬ walkTree fs (goAbs "/base") (targetOf "/base" "t") = none := by
      intro hn
      have hz := (List.findSome?_eq_none_iff.1 hn) e hmem
      rw [hchar e hmem, if_pos hdeep] at hz
      cases hz
    obtain ⟨err, herr⟩ := Option.ne_none_iff_exists'.1 hsome
    obtain ⟨x, hx, hxe⟩ := List.exists_of_findSome?_eq_some herr
    rw [hchar x hx] at hxe
    by_cases hxdeep : countSlash (goRel (targetOf "/base" "t") x.1) > maxDepth
    · rw [if_pos hxdeep] at hxe
      injection hxe with h2
      refine ⟨x.1, ?_⟩
      have herrK : walkTree fs (goAbs "/base")
          (goAbs (goJoin (goAbs "/base") (goClean "t"))) = some err := by
        simpa [targetOf] using herr
      simp +decide [Hardened.DeleteDir, hdK, herrK, h2]
    · rw [if_neg hxdeep] at hxe
      cases hxe
  · intro hshallow
    have hnone : walkTree fs (goAbs "/base")
        (goAbs (goJoin (goAbs "/base") (goClean "t"))) = none := by
      have : walkTree fs (goAbs "/base") (targetOf "/base" "t") = none := by
        apply List.findSome?_eq_none_iff.2
        intro x hx
        rw [hchar x hx]
        obtain ⟨hxfs, hxsub⟩ := (mem_subtreeEntries fs _ x).1 hx
        have hle := hshallow x hxfs hxsub
        simp only [entryDepth] at hle
        rw [if_neg (by omega)]
      simpa [targetOf] using this
    simp +decide [Hardened.DeleteDir, hdK, hnone, targetOf]

/-- C5 witness: both branches of the theorem applied at concrete filesystems;
the deep tree is rejected with the depth error and left intact, the shallow
tree is deleted. -/
theorem claim5_witness :
    (∃ q, Hardened.DeleteDir "/base" claim5DeepFS "t" =
      (.error (.osError ("max directory depth exceeded at " ++ q)), claim5DeepFS)) ∧
    Hardened.DeleteDir "/base" claim5ShallowFS "t" =
      (.ok (), removeAll claim5ShallowFS (targetOf "/base" "t")) :=
  ⟨(claim5_thm claim5DeepFS (by decide) (by decide)).1
      ⟨("/base/t/a/b/c/d/e/f/g", Node.dir), by decide, by decide, by decide⟩,
   (claim5_thm claim5ShallowFS (by decide) (by decide)).2 (by decide)⟩

/-! ### Claim C6 -/

/-- C6 (confirmed): the naive and hardened adapter variants are not
equivalent. On the input `../esc`, whose cleaned form begins with `..`, the
naive `CreateDir` creates `/esc` — a path outside the sandbox root `/base` —
and reports success, while the hardened `CreateDir` returns `InvalidPath` and
mutates nothing; likewise the naive `CreateFile` on directory path `../x`
writes `/x/f.txt` outside the root while the hardened one rejects it. -/
theorem claim6_thm :
    Naive.CreateDir "/base" claim6FS "../esc" =
      (.ok (), ("/esc", Node.dir) :: claim6FS) ∧
    hasPre "/esc" "/base/" = false ∧
    Hardened.CreateDir "/base" claim6FS "../esc" = (.error .invalidPath, claim6FS) ∧
    Naive.CreateFile "/base" claim6FS "../x" ⟨"f.txt", [5]⟩ =
      (.ok (), ("/x/f.txt", Node.file [5] true) :: claim6FS) ∧
    hasPre "/x/f.txt" "/base/" = false ∧
    Hardened.CreateFile "/base" claim6FS "../x" (some ⟨"f.txt", [5]⟩) =
      (.error .invalidPath, claim6FS) := by
  decide

/-! ### Claim C7 -/

/-- C7 (confirmed): in a `RenameFile` whose two paths pass validation and the
ancestor walks, and whose old path is an existing regular file: a new path
that exists as a directory yields `InvalidPath` (checked before, hence taking
precedence over, `FileNewExist`); a new path that exists as a regular file
yields `FileNewExist`; in both cases the filesystem — in particular both
files — is left unmodified. -/
theorem claim7_thm (fs : FS) (oldPath newPath : String) (c : List Nat) (b : Bool)
    (ho1 : ¬ oldPath = "") (hn1 : ¬ newPath = "")
    (ho2 : ¬ goClean oldPath = ".") (ho3 : hasPre (goClean oldPath) ".." = false)
    (hn2 : ¬ goClean newPath = ".") (hn3 : hasPre (goClean newPath) ".." = false)
    (ho4 : hasPre (goRel (goAbs "/base") (targetOf "/base" oldPath)) ".." = false)
    (hn4 : hasPre (goRel (goAbs "/base") (targetOf "/base" newPath)) ".." = false)
    (hwo : ancWalk fs "/base" (goDir (targetOf "/base" oldPath)) = .ok)
    (hwn : ancWalk fs "/base" (goDir (targetOf "/base" newPath)) = .ok)
    (hold : stat fs (targetOf "/base" oldPath) = some (Node.file c b)) :
    (stat fs (targetOf "/base" newPath) = some Node.dir →
      Hardened.RenameFile "/base" fs oldPath newPath = (.error .invalidPath, fs)) ∧
    (∀ (c2 : List Nat) (b2 : Bool),
      stat fs (targetOf "/base" newPath) = some (Node.file c2 b2) →
      Hardened.RenameFile "/base" fs oldPath newPath = (.error .fileNewExist, fs)) := by
  simp only [targetOf, ancWalk] at ho4 hn4 hwo hwn hold
  constructor
  · intro hnew
    simp only [targetOf] at hnew
    simp [Hardened.RenameFile, ho1, hn1, ho2, ho3, hn2, hn3, ho4, hn4, hwo, hwn,
      hold, hnew, isDirN]
  · intro c2 b2 hnew
    simp only [targetOf] at hnew
    simp [Hardened.RenameFile, ho1, hn1, ho2, ho3, hn2, hn3, ho4, hn4, hwo, hwn,
      hold, hnew, isDirN]

/-- C7 witness: both branches applied over `claim7FS` — renaming `a.txt` onto
the directory `d` gives `InvalidPath`, onto the existing file `b.txt` gives
`FileNewExist`, and the filesystem is unchanged both times. -/
theorem claim7_witness :
    Hardened.RenameFile "/base" claim7FS "a.txt" "d" = (.error .invalidPath, claim7FS) ∧
    Hardened.RenameFile "/base" claim7FS "a.txt" "b.txt" =
      (.error .fileNewExist, claim7FS) :=
  ⟨(claim7_thm claim7FS "a.txt" "d" [7] true (by decide) (by decide) (by decide)
      (by decide) (by decide) (by decide) (by decide) (by decide) (by decide)
      (by decide) (by decide)).1 (by decide),
   (claim7_thm claim7FS "a.txt" "b.txt" [7] true (by decide) (by decide) (by decide)
      (by decide) (by decide) (by decide) (by decide) (by decide) (by decide)
      (by decide) (by decide)).2 [8] true (by decide)⟩

/-! ### Claim C8 -/

/-- Cons case of the lexicographic string order. -/
theorem listLt_cons_iff (a b : Char) (as bs : List Char) :
    listLt (a :: as) (b :: bs) = true ↔ a < b ∨ (a = b ∧ listLt as bs = true) := by
  simp only [listLt]
  by_cases hab : a < b
  · simp [hab]
  · by_cases hba : b < a
    · have hne : ¬ a = b := ne_of_gt hba
      simp [hab, hba, hne]
    · have heq : a = b := le_antisymm (not_lt.1 hba) (not_lt.1 hab)
      simp [hab, hba, heq]

/-- The lexicographic order is transitive. -/
theorem listLt_trans : ∀ (x y z : List Char),
    listLt x y = true → listLt y z = true → listLt x z = true
  | [], [], _, h1, _ => by simp [listLt] at h1
  | [], _ :: _, [], _, h2 => by simp [listLt] at h2
  | [], _ :: _, _ :: _, _, _ => by simp [listLt]
  | _ :: _, [], _, h1, _ => by simp [listLt] at h1
  | _ :: _, _ :: _, [], _, h2 => by simp [listLt] at h2
  | a :: as, b :: bs, c :: cs, h1, h2 => by
    rcases (listLt_cons_iff a b as bs).1 h1 with hab | ⟨hab, h1⟩ <;>
      rcases (listLt_cons_iff b c bs cs).1 h2 with hbc | ⟨hbc, h2⟩
    · exact (listLt_cons_iff a c as cs).2 (Or.inl (lt_trans hab hbc))
    · exact (listLt_cons_iff a c as cs).2 (Or.inl (hbc ▸ hab))
    · exact (listLt_cons_iff a c as cs).2 (Or.inl (hab ▸ hbc))
    · exact (listLt_cons_iff a c as cs).2
        (Or.inr ⟨hab.trans hbc, listLt_trans as bs cs h1 h2⟩)

/-- The lexicographic order is trichotomous. -/
theorem listLt_total : ∀ (x y : List Char),
    listLt x y = true ∨ listLt y x = true ∨ x = y
  | [], [] => Or.inr (Or.inr rfl)
  | [], _ :: _ => Or.inl (by simp [listLt])
  | _ :: _, [] => Or.inr (Or.inl (by simp [listLt]))
  | a :: as, b :: bs => by
    rcases lt_trichotomy a b with h | h | h
    · exact Or.inl ((listLt_cons_iff a b as bs).2 (Or.inl h))
    · subst h
      rcases listLt_total as bs with h2 | h2 | h2
      · exact Or.inl ((listLt_cons_iff a a as bs).2 (Or.inr ⟨rfl, h2⟩))
      · exact Or.inr (Or.inl ((listLt_cons_iff a a bs as).2 (Or.inr ⟨rfl, h2⟩)))
      · exact Or.inr (Or.inr (by rw [h2]))
    · exact Or.inr (Or.inl ((listLt_cons_iff b a bs as).2 (Or.inl h)))

/-- The lexicographic order is asymmetric. -/
theorem listLt_asymm : ∀ (x y : List Char),
    listLt x y = true → listLt y x = true → False
  | [], [], h1, _ => by simp [listLt] at h1
  | [], _ :: _, _, h2 => by simp [listLt] at h2
  | _ :: _, [], h1, _ => by simp [listLt] at h1
  | a :: as, b :: bs, h1, h2 => by
    rcases (listLt_cons_iff a b as bs).1 h1 with hab | ⟨hab, h1⟩ <;>
      rcases (listLt_cons_iff b a bs as).1 h2 with hba | ⟨hba, h2⟩
    · exact lt_asymm hab hba
    · exact absurd hab (hba ▸ lt_irrefl a)
    · exact absurd hba (hab ▸ lt_irrefl a)
    · exact listLt_asymm as bs h1 h2

/-- The `sort.Slice` comparator of `GetFiles` is asymmetric. -/
theorem fileLess_asymm (a b : FileResult) (h1 : Hardened.fileLess a b = true)
    (h2 : Hardened.fileLess b a = true) : False := by
  unfold Hardened.fileLess at h1 h2
  cases ha : a.isDir <;> cases hb : b.isDir <;> simp [ha, hb] at h1 h2 <;>
    exact listLt_asymm _ _ h1 h2

/-- Connectedness from asymmetry-side: a strict comparison with `a` forces
one with any `b`. -/
theorem fileLess_conn (a b c : FileResult) (h : Hardened.fileLess c a = true) :
    Hardened.fileLess c b = true ∨ Hardened.fileLess b a = true := by
  unfold Hardened.fileLess at h ⊢
  cases hc : c.isDir <;> cases ha : a.isDir <;> cases hb : b.isDir <;>
      simp [hc, ha, hb] at h ⊢ <;>
    · rcases listLt_total c.name.data b.name.data with h2 | h2 | h2
      · exact Or.inl h2
      · exact Or.inr (listLt_trans _ _ _ h2 h)
      · exact Or.inr (by unfold strLt at h ⊢; rw [← h2]; exact h)

/-- The non-strict listing order is total. -/
theorem fileLe_total (a b : FileResult) :
    Hardened.fileLe a b = true ∨ Hardened.fileLe b a = true := by
  unfold Hardened.fileLe
  rw [Bool.not_eq_true', Bool.not_eq_true']
  by_cases h1 : Hardened.fileLess b a = true
  · refine Or.inr ?_
    cases h2 : Hardened.fileLess a b
    · rfl
    · exact (fileLess_asymm a b h2 h1).elim
  · exact Or.inl (Bool.not_eq_true _ ▸ h1)

/-- The non-strict listing order is transitive. -/
theorem fileLe_trans (a b c : FileResult) (h1 : Hardened.fileLe a b = true)
    (h2 : Hardened.fileLe b c = true) : Hardened.fileLe a c = true := by
  unfold Hardened.fileLe at h1 h2 ⊢
  rw [Bool.not_eq_true'] at h1 h2 ⊢
  cases hca : Hardened.fileLess c a
  · rfl
  · rcases fileLess_conn a b c hca with hcb | hba
    · rw [h2] at hcb
      cases hcb
    · rw [h1] at hba
      cases hba

/-- C8 (confirmed): a successful `GetFiles` returns exactly the immediate
children of the resolved directory — one descriptor per child, a permutation
of the `ReadDir` listing — ordered by the comparator that puts every
directory before every file and sorts each group lexicographically by name;
an empty directory yields the empty sequence (the permutation of an empty
child list), not an error. -/
theorem claim8_thm (fs : FS)
    (hsd : lstat fs (targetOf "/base" "d") = some Node.dir) :
    ∃ l, Hardened.GetFiles "/base" fs "d" = .ok l ∧
      l.Perm ((readDirChildren fs (targetOf "/base" "d")).map
        (Hardened.buildEntry fs (targetOf "/base" "d"))) ∧
      List.Pairwise (fun a b => Hardened.fileLe a b = true) l := by
  have hK : lstat fs (goAbs (goJoin (goAbs "/base") (goClean "d"))) = some Node.dir := by
    simpa [targetOf] using hsd
  have hKR : lstat fs (renderAbs [['d'], ['b', 'a', 's', 'e']]) = some Node.dir := by
    rw [show renderAbs [['d'], ['b', 'a', 's', 'e']] = "/base/d" from by decide]
    simpa [targetOf, show goAbs (goJoin (goAbs "/base") (goClean "d")) = "/base/d"
      from by decide] using hsd
  refine ⟨List.insertionSort (fun a b => Hardened.fileLe a b = true)
    ((readDirChildren fs (targetOf "/base" "d")).map
      (Hardened.buildEntry fs (targetOf "/base" "d"))), ?_, ?_, ?_⟩
  · simp +decide [Hardened.GetFiles, walkRev, stat, statFuel, hK, hKR, targetOf,
      show revSegs (goAbs (goJoin (goAbs "/base") (goClean "d"))) =
        [['d'], ['b', 'a', 's', 'e']] from by decide]
  · exact List.perm_insertionSort _ _
  · exact @List.sorted_insertionSort FileResult
      (fun a b => Hardened.fileLe a b = true) _ ⟨fileLe_total⟩
      ⟨fun a b c => fileLe_trans a b c⟩ _

/-- C8 witness: the theorem applied over `claim8FS`; additionally the
concrete evaluations showing the spec's example order
`[a, b.txt, c.txt]` (directory first, then files lexicographically) and the
empty listing of the empty directory `d2`. -/
theorem claim8_witness :
    (∃ l, Hardened.GetFiles "/base" claim8FS "d" = .ok l ∧
      l.Perm ((readDirChildren claim8FS (targetOf "/base" "d")).map
        (Hardened.buildEntry claim8FS (targetOf "/base" "d"))) ∧
      List.Pairwise (fun a b => Hardened.fileLe a b = true) l) ∧
    Hardened.GetFiles "/base" claim8FS "d" = .ok
      [⟨"a", true, none, none⟩,
       ⟨"b.txt", false, some 2, some "application/octet-stream"⟩,
       ⟨"c.txt", false, some 1, some "application/octet-stream"⟩] ∧
    Hardened.GetFiles "/base" claim8FS "d2" = .ok [] :=
  ⟨claim8_thm claim8FS (by decide), by decide, by decide⟩

/-! ### Claim C9 -/

/-- Helper: with duplicate-free keys, membership determines lookup. -/
theorem fsGet_of_mem_nodup : ∀ (fs : FS) (p : String) (n : Node),
    (p, n) ∈ fs → (fs.map Prod.fst).Nodup → fsGet fs p = some n
  | [], _, _, hm, _ => absurd hm (List.not_mem_nil _)
  | e :: rest, p, n, hm, hnd => by
    rcases List.mem_cons.1 hm with he | he
    · cases he.symm
      simp [fsGet]
    · have hnd1 := (List.nodup_cons.1 hnd).1
      have hne : ¬ e.1 = p := by
        intro hx
        exact hnd1 (hx ▸ List.mem_map.2 ⟨(p, n), he, rfl⟩)
      have ih := fsGet_of_mem_nodup rest p n he (List.nodup_cons.1 hnd).2
      unfold fsGet at ih ⊢
      rw [List.find?_cons_of_neg]
      · exact ih
      · simpa using hne

/-- C9 (confirmed): MIME sniffing during `GetFiles` is best-effort and
bounded. A non-directory child whose open fails (`openable = false`) gets a
descriptor with the `mimeType` field absent while the listing as a whole
still succeeds; a readable child's `mimeType` is computed from
`detectContentType` applied to at most the first 512 bytes of its content
(the walk reads into a 512-byte buffer), so it depends only on that prefix. -/
theorem claim9_thm (fs : FS) (cu co : List Nat)
    (hnd : (fs.map Prod.fst).Nodup)
    (hsd : lstat fs (targetOf "/base" "d") = some Node.dir)
    (hu : ("/base/d/u.bin", Node.file cu false) ∈ fs)
    (hv : ("/base/d/v.bin", Node.file co true) ∈ fs) :
    ∃ l, Hardened.GetFiles "/base" fs "d" = .ok l ∧
      ({ name := "u.bin", isDir := false, size := some cu.length,
         mimeType := none } : FileResult) ∈ l ∧
      ({ name := "v.bin", isDir := false, size := some co.length,
         mimeType := some (detectContentType (co.take 512)) } : FileResult) ∈ l := by
  have hK : lstat fs (goAbs (goJoin (goAbs "/base") (goClean "d"))) = some Node.dir := by
    simpa [targetOf] using hsd
  have hKR : lstat fs (renderAbs [['d'], ['b', 'a', 's', 'e']]) = some Node.dir := by
    rw [show renderAbs [['d'], ['b', 'a', 's', 'e']] = "/base/d" from by decide]
    simpa [targetOf, show goAbs (goJoin (goAbs "/base") (goClean "d")) = "/base/d"
      from by decide] using hsd
  have hlu : lstat fs "/base/d/u.bin" = some (Node.file cu false) := by
    unfold lstat
    rw [show goClean "/base/d/u.bin" = "/base/d/u.bin" from by decide]
    exact fsGet_of_mem_nodup fs _ _ hu hnd
  have hlv : lstat fs "/base/d/v.bin" = some (Node.file co true) := by
    unfold lstat
    rw [show goClean "/base/d/v.bin" = "/base/d/v.bin" from by decide]
    exact fsGet_of_mem_nodup fs _ _ hv hnd
  have hcu : ("u.bin", Node.file cu false) ∈ readDirChildren fs (targetOf "/base" "d") := by
    unfold readDirChildren
    rw [(List.perm_insertionSort _ _).mem_iff]
    refine List.mem_filterMap.2 ⟨("/base/d/u.bin", Node.file cu false), hu, ?_⟩
    simp +decide [targetOf]
  have hcv : ("v.bin", Node.file co true) ∈ readDirChildren fs (targetOf "/base" "d") := by
    unfold readDirChildren
    rw [(List.perm_insertionSort _ _).mem_iff]
    refine List.mem_filterMap.2 ⟨("/base/d/v.bin", Node.file co true), hv, ?_⟩
    simp +decide [targetOf]
  have hbu : Hardened.buildEntry fs (targetOf "/base" "d") ("u.bin", Node.file cu false) =
      { name := "u.bin", isDir := false, size := some cu.length, mimeType := none } := by
    simp +decide [Hardened.buildEntry, isDirN, nodeSize, openFile, stat, statFuel,
      targetOf, hlu,
      show goJoin (goAbs (goJoin (goAbs "/base") (goClean "d"))) "u.bin" =
        "/base/d/u.bin" from by decide]
  have hbv : Hardened.buildEntry fs (targetOf "/base" "d") ("v.bin", Node.file co true) =
      { name := "v.bin", isDir := false, size := some co.length,
        mimeType := some (detectContentType (co.take 512)) } := by
    simp +decide [Hardened.buildEntry, isDirN, nodeSize, openFile, stat, statFuel,
      targetOf, hlv,
      show goJoin (goAbs (goJoin (goAbs "/base") (goClean "d"))) "v.bin" =
        "/base/d/v.bin" from by decide]
  refine ⟨List.insertionSort (fun a b => Hardened.fileLe a b = true)
    ((readDirChildren fs (targetOf "/base" "d")).map
      (Hardened.buildEntry fs (targetOf "/base" "d"))), ?_, ?_, ?_⟩
  · simp +decide [Hardened.GetFiles, walkRev, stat, statFuel, hK, hKR, targetOf,
      show revSegs (goAbs (goJoin (goAbs "/base") (goClean "d"))) =
        [['d'], ['b', 'a', 's', 'e']] from by decide]
  · rw [(List.perm_insertionSort _ _).mem_iff]
    exact List.mem_map.2 ⟨("u.bin", Node.file cu false), hcu, hbu⟩
  · rw [(List.perm_insertionSort _ _).mem_iff]
    exact List.mem_map.2 ⟨("v.bin", Node.file co true), hcv, hbv⟩

/-- C9 witness: the theorem applied over `claim9FS` — the unreadable
`u.bin` is listed without a MIME type, the readable `v.bin` with one, and
the listing succeeds. -/
theorem claim9_witness :
    ∃ l, Hardened.GetFiles "/base" claim9FS "d" = .ok l ∧
      ({ name := "u.bin", isDir := false, size := some 3,
         mimeType := none } : FileResult) ∈ l ∧
      ({ name := "v.bin", isDir := false, size := some 2,
         mimeType := some (detectContentType ([4, 5].take 512)) } : FileResult) ∈ l :=
  claim9_thm claim9FS [1, 2, 3] [4, 5] (by decide) (by decide) (by decide) (by decide)

/-! ### Claim C10 -/

/-- C10 (confirmed): the ancestor walk of `GetFiles` and `CreateFile` starts
at the resolved target itself, not at its parent: if the final component is a
symbolic link — wherever it points, in particular inside the sandbox root —
the operation returns `InvalidPath` (and `CreateFile` mutates nothing), so a
listing of, or upload into, a symlinked directory is always rejected. -/
theorem claim10_thm (fs : FS) (t : String)
    (hl : lstat fs "/base/ln" = some (Node.symlink t)) :
    Hardened.GetFiles "/base" fs "ln" = .error .invalidPath ∧
    Hardened.CreateFile "/base" fs "ln" (some ⟨"u.txt", [1]⟩) =
      (.error .invalidPath, fs) := by
  have hlR : lstat fs (renderAbs [['l', 'n'], ['b', 'a', 's', 'e']]) =
      some (Node.symlink t) := by
    rw [show renderAbs [['l', 'n'], ['b', 'a', 's', 'e']] = "/base/ln" from by decide]
    exact hl
  constructor
  · simp +decide [Hardened.GetFiles, walkRev, hlR,
      show revSegs (goAbs (goJoin (goAbs "/base") (goClean "ln"))) =
        [['l', 'n'], ['b', 'a', 's', 'e']] from by decide]
  · simp +decide [Hardened.CreateFile, walkRev, hlR,
      show revSegs (goAbs (goJoin (goAbs "/base") (goClean "ln"))) =
        [['l', 'n'], ['b', 'a', 's', 'e']] from by decide]

/-- C10 witness: the theorem applied over `claim10FS`, whose symlink `ln`
resolves to the directory `in` inside the sandbox root. -/
theorem claim10_witness :
    Hardened.GetFiles "/base" claim10FS "ln" = .error .invalidPath ∧
    Hardened.CreateFile "/base" claim10FS "ln" (some ⟨"u.txt", [1]⟩) =
      (.error .invalidPath, claim10FS) :=
  claim10_thm claim10FS "/base/in" (by decide)

end FilesService
